import Mathlib

/-
Verification development for the identity-directory bot (src/index.js).
Strings are modelled as `List Char`; JS numbers that can be NaN are
modelled as `Option Nat` (`none` = NaN); timestamps (`Date.now()`) are
naturals in milliseconds.
-/

set_option maxRecDepth 4000

namespace Verifying

/-- Decimal digit character for `d < 10`; mirrors JS number-to-string for one digit. -/
def digitChar (d : Nat) : Char :=
  if d = 0 then '0' else if d = 1 then '1' else if d = 2 then '2'
  else if d = 3 then '3' else if d = 4 then '4' else if d = 5 then '5'
  else if d = 6 then '6' else if d = 7 then '7' else if d = 8 then '8'
  else '9'

/-- Character is an ASCII decimal digit. -/
def isDigitChar (c : Char) : Bool := 48 ≤ c.toNat && c.toNat ≤ 57

/-- Numeric value of an ASCII digit character. -/
def digitVal (c : Char) : Nat := c.toNat - 48

/-- Decimal digits of `n`, most significant first; `fuel` bounds the recursion
(`n + 1` always suffices since `n / 10 < n` for `n ≥ 10`). Mirrors the decimal
rendering that JS template-literal interpolation applies to a number. -/
def natDigitsAux : Nat → Nat → List Char
  | 0, _ => []
  | fuel + 1, n =>
    if n < 10 then [digitChar n]
    else natDigitsAux fuel (n / 10) ++ [digitChar (n % 10)]

/-- Decimal rendering of a natural number, as a character list. -/
def natDigits (n : Nat) : List Char := natDigitsAux (n + 1) n

/-- Accumulate the value of a digit string, most significant first. -/
def parseNatFold (l : List Char) : Nat := l.foldl (fun a c => a * 10 + digitVal c) 0

/-- JS `parseInt(s, 10)` restricted to the strings this program produces:
reads the longest leading run of decimal digits; `none` (= NaN) when there is
no leading digit. (Sign/whitespace handling is irrelevant here: the encoder
only ever interpolates nonnegative integers.) -/
def jsParseInt (cs : List Char) : Option Nat :=
  let ds := cs.takeWhile isDigitChar
  if ds.isEmpty then none else some (parseNatFold ds)

/-- JS `Number(s)` restricted to the strings this program produces:
`""` is `0`; a nonempty all-digit string is its value; anything else is NaN
(`none`). -/
def jsNumber (cs : List Char) : Option Nat :=
  if cs.isEmpty then some 0
  else if cs.all isDigitChar then some (parseNatFold cs) else none

/-- JS `Number(s || 0)` where `s` may be `undefined` (`none`): `undefined` and
`""` are falsy, so both yield `Number(0) = 0`. -/
def jsNumberOrZero (s : Option (List Char)) : Option Nat :=
  match s with
  | none => some 0
  | some cs => jsNumber cs

/-- JS `String.prototype.split(':')` on a character list. Always returns at
least one (possibly empty) field. -/
def splitOnColon : List Char → List (List Char)
  | [] => [[]]
  | c :: rest =>
    match splitOnColon rest with
    | [] => [[]]
    | f :: fs => if c = ':' then [] :: f :: fs else (c :: f) :: fs

/-- `const PAGE_SIZE = 20` (src/index.js:44). -/
def PAGE_SIZE : Nat := 20

/-- `const BUTTON_TTL = 2 * 60 * 1000` (src/index.js:46), in milliseconds. -/
def BUTTON_TTL : Nat := 2 * 60 * 1000

/-- `const BATCH_SIZE = 5` in the addall handler (src/index.js:479). -/
def BATCH_SIZE : Nat := 5

/-- `const DELAY = 5000` in the addall handler (src/index.js:480), ms. -/
def DELAY : Nat := 5000

/-- One record of `users.json` (the fields src/index.js reads or writes).
`none` models an absent/null field. -/
structure UserRecord where
  id : Option (List Char) := none
  username : Option (List Char) := none
  verifiedAt : Option (List Char) := none
  ip : Option (List Char) := none
  avatar : Option (List Char) := none
  access_token : Option (List Char) := none
  refresh_token : Option (List Char) := none
  deriving DecidableEq

/-- The users store: a JS object keyed by user id, modelled as an ordered
association list (JS objects have unique keys and preserve insertion order). -/
abbrev Store := List (List Char × UserRecord)

/-- `users[k] = v` on a JS object: overwrite in place if the key exists,
otherwise append. -/
def storeSet (st : Store) (k : List Char) (v : UserRecord) : Store :=
  if st.any (fun kv => kv.1 = k) then
    st.map (fun kv => if kv.1 = k then (k, v) else kv)
  else st ++ [(k, v)]

/-- The pagination action a button carries. -/
inductive PageAction where
  | prev
  | next
  deriving DecidableEq

/-- The customId action tag: `userlist_prev` / `userlist_next` (src/index.js:252,258). -/
def actionTag : PageAction → List Char
  | .prev => "userlist_prev".toList
  | .next => "userlist_next".toList

/-- Encode a pagination token as the button customId
`<tag>:<targetPage>:<actorId>:<issuedAt>` (src/index.js:252,258). -/
def encodeToken (a : PageAction) (targetPage : Nat) (actorId : List Char) (issuedAt : Nat) : List Char :=
  actionTag a ++ (':' :: (natDigits targetPage ++ (':' :: (actorId ++ (':' :: natDigits issuedAt)))))

/-- Decode direction of the codec, assembled from the button handler's field
extraction (src/index.js:273-274,292): split on `:`, take the four fields,
read the action back from the same tags the encoder uses, the page with
`parseInt` and the timestamp with `Number`. `none` when any part fails. -/
def decodeToken (cs : List Char) : Option (PageAction × Nat × List Char × Nat) :=
  match splitOnColon cs with
  | [f0, f1, f2, f3] =>
    let a? : Option PageAction :=
      if f0 = actionTag .prev then some .prev
      else if f0 = actionTag .next then some .next
      else none
    match a?, jsParseInt f1, jsNumber f3 with
    | some a, some p, some t => some (a, p, f2, t)
    | _, _, _ => none
  | _ => none

/-- Integer form of `Math.ceil(a / b)` on naturals. -/
def ceilDivNat (a b : Nat) : Nat := (a + b - 1) / b

/-- The observable content of one rendered userlist page (src/index.js:227-266):
the clamped page number, the page count, the slice of records shown, the footer
total, and the two button customIds with their disabled flags. -/
structure PageView where
  page : Nat
  pages : Nat
  slice : List UserRecord
  totalFooter : Nat
  prevId : List Char
  nextId : List Char
  prevDisabled : Bool
  nextDisabled : Bool
  deriving DecidableEq

/-- `buildUserlistPage(usersObj, page, invokerId)` (src/index.js:227-266).
`nowTs` is the `Date.now()` sampled at line 250 for the fresh tokens.
`page` arrives as a JS number that may be below 1, hence `Int`. -/
def buildUserlistPage (usersObj : Store) (page : Int) (invokerId : List Char) (nowTs : Nat) : PageView :=
  let all := usersObj.map Prod.snd
  let total := all.length
  let pages := max 1 (ceilDivNat total PAGE_SIZE)
  let page1 := (min (max 1 page) (pages : Int)).toNat
  let start := (page1 - 1) * PAGE_SIZE
  let slice := (all.drop start).take PAGE_SIZE
  { page := page1
    pages := pages
    slice := slice
    totalFooter := total
    prevId := encodeToken .prev (page1 - 1) invokerId nowTs
    nextId := encodeToken .next (page1 + 1) invokerId nowTs
    prevDisabled := page1 ≤ 1
    nextDisabled := pages ≤ page1 }

/-- Outcome of the button branch of the interactionCreate handler
(src/index.js:272-306). -/
inductive RedeemOutcome where
  | notHandled
  | expired
  | forbidden
  | view (pv : PageView)
  deriving DecidableEq

/-- The `userlist` customId tag tested by `prefix?.startsWith('userlist')`. -/
def userlistTag : List Char := "userlist".toList

/-- The TTL test `Date.now() - createdAt > BUTTON_TTL` (src/index.js:280).
`createdAt = none` is NaN, and every comparison against NaN is false.
With naturals, truncated subtraction agrees with JS real subtraction here:
both sides of the comparison are false whenever `t ≥ now`. -/
def ttlExceeded (now : Nat) (createdAt : Option Nat) : Bool :=
  match createdAt with
  | none => false
  | some t => decide (now - t > BUTTON_TTL)

/-- The button branch of the interactionCreate handler (src/index.js:272-306):
split the customId, check the tag, the TTL, then ownership, then clamp the
parsed page and rebuild the page from the freshly loaded store `usersObj`.
This path never writes the store (there is no save call in it). -/
def redeemButton (customId : List Char) (redeemerId : List Char) (now : Nat) (usersObj : Store) : RedeemOutcome :=
  let fields := splitOnColon customId
  let f0 : List Char := fields.headD []
  let pageStr : Option (List Char) := fields[1]?
  let invokerId : Option (List Char) := fields[2]?
  let createdAtStr : Option (List Char) := fields[3]?
  let createdAt : Option Nat := jsNumberOrZero createdAtStr
  if ¬ userlistTag.isPrefixOf f0 then .notHandled
  else if ttlExceeded now createdAt then .expired
  else
    match invokerId with
    | none => .forbidden
    | some inv =>
      if redeemerId ≠ inv then .forbidden
      else
        let targetPage : Nat :=
          match pageStr.bind jsParseInt with
          | none => 1
          | some p => if p < 1 then 1 else p
        .view (buildUserlistPage usersObj (targetPage : Int) inv now)

/-- Outcome of the token-refresh fetch for one user (src/index.js:180-199):
`ok` is a reply whose body carries an `access_token` (and possibly a new
`refresh_token`); `bad` is a reply whose body lacks one; `err` is a thrown
network/protocol exception. A falsy (empty) token field is modelled as `none`. -/
inductive RefreshOutcome where
  | ok (accessToken : List Char) (newRefresh : Option (List Char))
  | bad
  | err
  deriving DecidableEq

/-- The per-record body of the refresh loop (src/index.js:170-217): evict when
there is no refresh token, evict on a failed or thrown refresh, otherwise
rotate the access token, take the new refresh token if one was supplied, and
re-assert the old one if the field somehow ended up empty (lines 204-210).
`none` means the record is deleted from the store. -/
def refreshRecord (oracle : List Char → RefreshOutcome) (uid : List Char) (u : UserRecord) : Option UserRecord :=
  match u.refresh_token with
  | none => none
  | some rt =>
    match oracle uid with
    | .err => none
    | .bad => none
    | .ok access newR =>
      let u1 := { u with access_token := some access }
      let u2 :=
        match newR with
        | some r => { u1 with refresh_token := some r }
        | none => u1
      let u3 :=
        match u2.refresh_token with
        | none => { u2 with refresh_token := some rt }
        | some _ => u2
      some u3

/-- The refresh loop over the `Object.entries` snapshot, in order: the kept
records (evictions removed, rotations applied) plus the `refreshed` and
`deleted` counters. Faithful to the JS object mutation because the store's
keys are unique, so deleting/updating `users[userId]` only touches the entry
being visited. -/
def refreshList (oracle : List Char → RefreshOutcome) : Store → Store × Nat × Nat
  | [] => ([], 0, 0)
  | (uid, u) :: rest =>
    let r := refreshList oracle rest
    match refreshRecord oracle uid u with
    | none => (r.1, r.2.1, r.2.2 + 1)
    | some u1 => ((uid, u1) :: r.1, r.2.1 + 1, r.2.2)

/-- Result of one `refreshAllTokens` pass: the in-memory store at the end, the
two counters, and the list of store snapshots passed to `saveJson`, in order. -/
structure RefreshResult where
  store : Store
  refreshed : Nat
  deleted : Nat
  saves : List Store
  deriving DecidableEq

/-- `refreshAllTokens()` (src/index.js:157-224) on the freshly loaded store
`st`: an empty store returns early at line 165 — before the `saveJson` call at
line 221 — so it records no save; otherwise the loop runs over every entry and
the final store is saved once. -/
def refreshAllTokens (oracle : List Char → RefreshOutcome) (st : Store) : RefreshResult :=
  if st.isEmpty then { store := st, refreshed := 0, deleted := 0, saves := [] }
  else
    let r := refreshList oracle st
    { store := r.1, refreshed := r.2.1, deleted := r.2.2, saves := [r.1] }

/-- The batching loop of the addall handler (src/index.js:484-518):
`for (let i = 0; i < n; i += BATCH_SIZE)` takes `slice(i, i + BATCH_SIZE)`,
awaits the whole batch, and sleeps only when `i + BATCH_SIZE < n`. `fuel`
bounds the loop; `recs.length` suffices whenever `bs > 0` since every
iteration consumes at least one record. Returns the batches in issue order
and the number of inter-batch delays taken. -/
def dispatchAux (bs : Nat) : Nat → List α → List (List α) × Nat
  | 0, _ => ([], 0)
  | fuel + 1, recs =>
    if recs.isEmpty then ([], 0)
    else
      let b := recs.take bs
      let rest := recs.drop bs
      if rest.isEmpty then ([b], 0)
      else
        let p := dispatchAux bs fuel rest
        (b :: p.1, p.2 + 1)

/-- The batch partition and delay count produced by the addall loop. Batches
are issued strictly in order: each `Promise.all` is awaited before the next
slice is taken, so batch N+1 starts only after batch N has fully settled. -/
def dispatchBatches (bs : Nat) (recs : List α) : List (List α) × Nat :=
  dispatchAux bs recs.length recs

/-- Body of the token-exchange reply in the auth callback (src/index.js:608). -/
structure TokenData where
  access_token : Option (List Char) := none
  refresh_token : Option (List Char) := none
  token_type : List Char := []
  deriving DecidableEq

/-- Body of the `users/@me` reply in the auth callback (src/index.js:618). -/
structure CallbackUserData where
  id : List Char := []
  global_name : Option (List Char) := none
  username : Option (List Char) := none
  avatar : Option (List Char) := none
  deriving DecidableEq

/-- JS `a || b` on a possibly-absent string: an absent or empty string falls
through to `b`. -/
def jsOrStr (a : Option (List Char)) (b : List Char) : List Char :=
  match a with
  | none => b
  | some s => if s.isEmpty then b else s

/-- The display-name computation of the callback (src/index.js:621-624):
`global_name || username || ''`, defaulted to `UnknownUser`. (The `.trim()`
and legacy-discriminator suffix are cosmetic string formatting no claim
depends on and are omitted.) -/
def fullUsernameOf (ud : CallbackUserData) : List Char :=
  let maybeName := jsOrStr ud.global_name (jsOrStr ud.username [])
  if maybeName.isEmpty then "UnknownUser".toList else maybeName

/-- Result of one auth-callback request: the HTTP status responded, the
in-memory store afterwards, and the snapshots passed to `saveJson`. -/
structure CallbackResult where
  status : Nat
  store : Store
  saves : List Store
  deriving DecidableEq

/-- HTTP 4xx. -/
def isClientError (status : Nat) : Bool := 400 ≤ status && status < 500

/-- `app.get('/callback')` (src/index.js:587-637), up to and including the
store write. `code` is the query parameter (`none` = absent); `exchange` is
the token-exchange fetch (`Except.error` = thrown, which the outer catch turns
into a 500); `userFetch` is the `users/@me` fetch. The role-assignment,
channel-log and HTML-page tail after the store write does not touch the store
and is not modelled. A missing or empty (falsy) `code` is answered 400 before
any external call; a failed exchange is answered 500 at line 612; both paths
return before the store is read or written. -/
def callbackHandler (code : Option (List Char)) (ip : List Char)
    (exchange : Except Unit TokenData)
    (userFetch : Except Unit CallbackUserData)
    (verifiedAtIso : List Char) (st : Store) : CallbackResult :=
  let codeTruthy : Bool := match code with
    | none => false
    | some c => !c.isEmpty
  if ¬ codeTruthy then { status := 400, store := st, saves := [] }
  else
    match exchange with
    | .error _ => { status := 500, store := st, saves := [] }
    | .ok td =>
      match td.access_token with
      | none => { status := 500, store := st, saves := [] }
      | some at0 =>
        if at0.isEmpty then { status := 500, store := st, saves := [] }
        else
          match userFetch with
          | .error _ => { status := 500, store := st, saves := [] }
          | .ok ud =>
            let newRec : UserRecord :=
              { id := some ud.id
                username := some (fullUsernameOf ud)
                verifiedAt := some verifiedAtIso
                ip := some ip
                avatar := ud.avatar
                access_token := some at0
                refresh_token :=
                  match td.refresh_token with
                  | some r => if r.isEmpty then none else some r
                  | none => none }
            let st1 := storeSet st ud.id newRec
            { status := 200, store := st1, saves := [st1] }

/- ------------------------------------------------------------------ -/
/- Helper lemmas                                                       -/
/- ------------------------------------------------------------------ -/

theorem digitVal_digitChar (d : Nat) (h : d < 10) : digitVal (digitChar d) = d := by
  unfold digitChar
  split_ifs with h0 h1 h2 h3 h4 h5 h6 h7 h8
  · subst h0; decide
  · subst h1; decide
  · subst h2; decide
  · subst h3; decide
  · subst h4; decide
  · subst h5; decide
  · subst h6; decide
  · subst h7; decide
  · subst h8; decide
  · have h9 : d = 9 := by omega
    subst h9; decide

theorem isDigitChar_digitChar (d : Nat) : isDigitChar (digitChar d) = true := by
  unfold digitChar
  split_ifs <;> decide

theorem digitChar_ne_colon (d : Nat) : digitChar d ≠ ':' := by
  unfold digitChar
  split_ifs <;> decide

theorem natDigitsAux_all_digits (f : Nat) :
    ∀ n c, c ∈ natDigitsAux f n → isDigitChar c = true := by
  induction f with
  | zero => intro n c hc; simp [natDigitsAux] at hc
  | succ f ih =>
    intro n c hc
    unfold natDigitsAux at hc
    by_cases h : n < 10
    · simp [h] at hc
      subst hc
      exact isDigitChar_digitChar n
    · simp [h] at hc
      rcases hc with hc | hc
      · exact ih _ _ hc
      · subst hc
        exact isDigitChar_digitChar (n % 10)

theorem colon_not_mem_natDigits (n : Nat) : ':' ∉ natDigits n := by
  intro h
  have := natDigitsAux_all_digits (n + 1) n ':' h
  simp [isDigitChar] at this

theorem natDigitsAux_ne_nil (f n : Nat) (hf : 0 < f) : natDigitsAux f n ≠ [] := by
  cases f with
  | zero => omega
  | succ f =>
    unfold natDigitsAux
    by_cases h : n < 10 <;> simp [h]

theorem natDigits_ne_nil (n : Nat) : natDigits n ≠ [] :=
  natDigitsAux_ne_nil (n + 1) n (Nat.succ_pos n)

theorem natDigitsAux_succ (f n : Nat) :
    natDigitsAux (f + 1) n =
      if n < 10 then [digitChar n]
      else natDigitsAux f (n / 10) ++ [digitChar (n % 10)] := rfl

theorem foldl_natDigitsAux (f : Nat) :
    ∀ n a, n < f →
      (natDigitsAux f n).foldl (fun a c => a * 10 + digitVal c) a =
        a * 10 ^ (natDigitsAux f n).length + n := by
  induction f with
  | zero => intro n a h; omega
  | succ f ih =>
    intro n a h
    rw [natDigitsAux_succ]
    by_cases h10 : n < 10
    · simp [h10, digitVal_digitChar n h10]
    · have hrec : n / 10 < f := by omega
      simp only [h10, if_false, List.foldl_append, List.length_append, List.foldl_cons,
        List.foldl_nil, List.length_cons, List.length_nil]
      rw [ih (n / 10) a hrec]
      rw [digitVal_digitChar (n % 10) (Nat.mod_lt n (by omega))]
      have hdm : n / 10 * 10 + n % 10 = n := by omega
      ring_nf
      omega

theorem parseNatFold_natDigits (n : Nat) : parseNatFold (natDigits n) = n := by
  unfold parseNatFold natDigits
  rw [foldl_natDigitsAux (n + 1) n 0 (Nat.lt_succ_self n)]
  simp

theorem takeWhile_eq_self_of_all {p : Char → Bool} :
    ∀ l : List Char, (∀ c ∈ l, p c = true) → l.takeWhile p = l := by
  intro l
  induction l with
  | nil => intro _; rfl
  | cons c rest ih =>
    intro hl
    have hc : p c = true := hl c (List.mem_cons_self c rest)
    have hrest := ih fun x hx => hl x (List.mem_cons_of_mem c hx)
    simp [List.takeWhile, hc, hrest]

theorem jsParseInt_natDigits (n : Nat) : jsParseInt (natDigits n) = some n := by
  unfold jsParseInt
  rw [takeWhile_eq_self_of_all (natDigits n) (fun c hc => natDigitsAux_all_digits (n + 1) n c hc)]
  simp [List.isEmpty_iff, natDigits_ne_nil n, parseNatFold_natDigits n]

theorem jsNumber_natDigits (n : Nat) : jsNumber (natDigits n) = some n := by
  unfold jsNumber
  have hall : (natDigits n).all isDigitChar = true := by
    rw [List.all_eq_true]
    exact fun c hc => natDigitsAux_all_digits (n + 1) n c hc
  simp [List.isEmpty_iff, natDigits_ne_nil n, hall, parseNatFold_natDigits n]

theorem splitOnColon_cons (c : Char) (rest : List Char) :
    splitOnColon (c :: rest) =
      match splitOnColon rest with
      | [] => [[]]
      | f :: fs => if c = ':' then [] :: f :: fs else (c :: f) :: fs := rfl

theorem splitOnColon_ne_nil (l : List Char) : splitOnColon l ≠ [] := by
  induction l with
  | nil => simp [splitOnColon]
  | cons c rest ih =>
    rw [splitOnColon_cons]
    cases h : splitOnColon rest with
    | nil => simp
    | cons f fs => by_cases hc : c = ':' <;> simp [hc]

theorem splitOnColon_no_colon (l : List Char) (h : ':' ∉ l) : splitOnColon l = [l] := by
  induction l with
  | nil => rfl
  | cons c rest ih =>
    have hc : c ≠ ':' := fun hEq => h (hEq ▸ List.mem_cons_self c rest)
    have hrest : ':' ∉ rest := fun hm => h (List.mem_cons_of_mem c hm)
    rw [splitOnColon_cons, ih hrest]
    simp [hc]

theorem splitOnColon_append (xs ys : List Char) (h : ':' ∉ xs) :
    splitOnColon (xs ++ ':' :: ys) = xs :: splitOnColon ys := by
  induction xs with
  | nil =>
    rw [List.nil_append, splitOnColon_cons]
    cases hys : splitOnColon ys with
    | nil => exact absurd hys (splitOnColon_ne_nil ys)
    | cons f fs => simp
  | cons c rest ih =>
    have hc : c ≠ ':' := fun hEq => h (hEq ▸ List.mem_cons_self c rest)
    have hrest : ':' ∉ rest := fun hm => h (List.mem_cons_of_mem c hm)
    rw [List.cons_append, splitOnColon_cons, ih hrest]
    simp [hc]

theorem colon_not_mem_actionTag (a : PageAction) : ':' ∉ actionTag a := by
  cases a <;> decide

theorem splitOnColon_encodeToken (a : PageAction) (p : Nat) (actor : List Char) (t : Nat)
    (h : ':' ∉ actor) :
    splitOnColon (encodeToken a p actor t) = [actionTag a, natDigits p, actor, natDigits t] := by
  unfold encodeToken
  rw [splitOnColon_append _ _ (colon_not_mem_actionTag a)]
  rw [splitOnColon_append _ _ (colon_not_mem_natDigits p)]
  rw [splitOnColon_append _ _ h]
  rw [splitOnColon_no_colon _ (colon_not_mem_natDigits t)]

theorem userlistTag_isPrefixOf_actionTag (a : PageAction) :
    userlistTag.isPrefixOf (actionTag a) = true := by
  cases a <;> decide

/-- Full characterization of the button handler on a well-formed encoded token
whose actor contains no delimiter: the TTL check fires first, then ownership,
then the page is clamped below by 1 and rendered. -/
theorem redeemButton_encodeToken (a : PageAction) (p : Nat) (actor : List Char) (t : Nat)
    (redeemer : List Char) (now : Nat) (st : Store) (h : ':' ∉ actor) :
    redeemButton (encodeToken a p actor t) redeemer now st =
      if now - t > BUTTON_TTL then .expired
      else if redeemer ≠ actor then .forbidden
      else .view (buildUserlistPage st ((if p < 1 then 1 else p : Nat) : Int) actor now) := by
  have hsplit := splitOnColon_encodeToken a p actor t h
  have hpfx := userlistTag_isPrefixOf_actionTag a
  simp only [redeemButton, hsplit, List.headD_cons, List.getElem?_cons_succ,
    List.getElem?_cons_zero, hpfx, not_true, if_false, jsNumberOrZero,
    jsNumber_natDigits, ttlExceeded, Option.some_bind, jsParseInt_natDigits,
    decide_eq_true_eq, ite_not]

/-- C1: redeeming an encoded pagination token fails with Expired exactly when
`now - issuedAt > BUTTON_TTL` (TTL = 2 minutes); in particular redemption at
`issuedAt + TTL + 1` ms fails with Expired and redemption at
`issuedAt + TTL - 1` ms does not fail with Expired. -/
theorem C1_expired_iff_ttl (a : PageAction) (p : Nat) (actor : List Char) (t : Nat)
    (redeemer : List Char) (now : Nat) (st : Store) (h : ':' ∉ actor) :
    (redeemButton (encodeToken a p actor t) redeemer now st = .expired ↔
      now - t > BUTTON_TTL)
    ∧ redeemButton (encodeToken a p actor t) redeemer (t + BUTTON_TTL + 1) st = .expired
    ∧ redeemButton (encodeToken a p actor t) redeemer (t + BUTTON_TTL - 1) st ≠ .expired := by
  refine ⟨?_, ?_, ?_⟩
  · rw [redeemButton_encodeToken a p actor t redeemer now st h]
    by_cases hTTL : now - t > BUTTON_TTL
    · simp [hTTL]
    · rw [if_neg hTTL]
      constructor
      · intro hEq
        split_ifs at hEq
      · intro hGt
        exact absurd hGt hTTL
  · rw [redeemButton_encodeToken a p actor t redeemer (t + BUTTON_TTL + 1) st h]
    have hgt : t + BUTTON_TTL + 1 - t > BUTTON_TTL := by omega
    simp [hgt]
  · rw [redeemButton_encodeToken a p actor t redeemer (t + BUTTON_TTL - 1) st h]
    have hle : ¬ (t + BUTTON_TTL - 1 - t > BUTTON_TTL) := by
      have : (0 : Nat) < BUTTON_TTL := by decide
      omega
    simp only [hle, if_false]
    split_ifs <;> simp

theorem C1_expired_iff_ttl_witness :
    redeemButton (encodeToken .prev 2 ['u'] 1000) ['u'] (1000 + BUTTON_TTL + 1) [] =
      .expired :=
  (C1_expired_iff_ttl .prev 2 ['u'] 1000 ['u'] (1000 + BUTTON_TTL + 1) [] (by decide)).2.1

/-- C2 (amended): the codec round-trips every `(action, targetPage, actorId,
issuedAt)` tuple whose actorId contains no `':'` delimiter — decoding the
encoded customId recovers exactly the four fields. (An actorId containing the
delimiter shifts the split fields and breaks the round trip.) -/
theorem C2_roundtrip (a : PageAction) (p : Nat) (actor : List Char) (t : Nat)
    (h : ':' ∉ actor) :
    decodeToken (encodeToken a p actor t) = some (a, p, actor, t) := by
  unfold decodeToken
  rw [splitOnColon_encodeToken a p actor t h]
  cases a <;>
    simp [jsParseInt_natDigits, jsNumber_natDigits, actionTag]

theorem C2_roundtrip_witness :
    decodeToken (encodeToken .next 3 ['u'] 5) = some (.next, 3, ['u'], 5) :=
  C2_roundtrip .next 3 ['u'] 5 (by decide)

/-- C2 counterexample: with an actorId containing the delimiter `':'`, decoding
the encoded token does not recover the original four fields, so the round-trip
law fails as stated (it quantifies over every tuple). -/
theorem C2_roundtrip_counterexample :
    decodeToken (encodeToken .prev 3 [':'] 5) ≠ some (.prev, 3, [':'], 5) := by
  decide

/-- C3: redeeming a validly-timed encoded token under an identity different
from the token's actorId fails with Forbidden, for every redemption time
within the TTL. -/
theorem C3_forbidden_on_mismatch (a : PageAction) (p : Nat) (actor : List Char) (t : Nat)
    (redeemer : List Char) (now : Nat) (st : Store) (h : ':' ∉ actor)
    (hTTL : now - t ≤ BUTTON_TTL) (hne : redeemer ≠ actor) :
    redeemButton (encodeToken a p actor t) redeemer now st = .forbidden := by
  rw [redeemButton_encodeToken a p actor t redeemer now st h]
  have hnot : ¬ (now - t > BUTTON_TTL) := by omega
  simp [hnot, hne]

theorem C3_forbidden_on_mismatch_witness :
    redeemButton (encodeToken .prev 2 ['u'] 1000) ['v'] (1000 + BUTTON_TTL - 1) [] =
      .forbidden :=
  C3_forbidden_on_mismatch .prev 2 ['u'] 1000 ['v'] (1000 + BUTTON_TTL - 1) []
    (by decide) (by decide) (by decide)

/-- C10 (amended): a pagination token whose issuedAt field is missing or empty
is treated as issued at epoch 0 and is therefore rejected as expired whenever
`now` exceeds the TTL (and the button path performs no store write, see
`redeemButton`); but a token whose issuedAt field is present and non-numeric
evaluates to NaN, every comparison against NaN is false, so the expiry check
passes and — when the redeemer matches the token's actor — redemption proceeds
to yield a page view rather than rejecting the malformed token. -/
theorem C10_malformed_token (customId redeemer : List Char) (now : Nat) (st : Store)
    (hpfx : userlistTag.isPrefixOf ((splitOnColon customId).headD []) = true)
    (hmiss : (splitOnColon customId)[3]? = none ∨ (splitOnColon customId)[3]? = some [])
    (hnow : now > BUTTON_TTL) :
    redeemButton customId redeemer now st = .expired
    ∧ (∀ (now1 : Nat) (st1 : Store),
        redeemButton "userlist_prev:2:u:zz".toList ['u'] now1 st1 =
          .view (buildUserlistPage st1 (2 : Int) ['u'] now1)) := by
  constructor
  · have h0 : ttlExceeded now (some 0) = true := by
      simp only [ttlExceeded, decide_eq_true_eq]
      omega
    simp only [List.isPrefixOf_iff_prefix, List.headD_eq_head?_getD] at hpfx
    rcases hmiss with hm | hm <;>
      simp [redeemButton, hm, hpfx, jsNumberOrZero, jsNumber, h0]
  · intro now1 st1
    rfl

theorem C10_malformed_token_witness :
    redeemButton "userlist_prev:2:u".toList ['u'] (BUTTON_TTL + 1) [] = .expired :=
  (C10_malformed_token "userlist_prev:2:u".toList ['u'] (BUTTON_TTL + 1) []
    (by decide) (Or.inl (by decide)) (by decide)).1

/-- C10 counterexample: this token's issuedAt field is the non-numeric string
`zz`, yet redemption by the matching redeemer proceeds to yield a page view
(here even though the control is over two minutes old), so malformed tokens
are not all rejected. -/
theorem C10_malformed_token_counterexample :
    redeemButton "userlist_prev:2:u:zz".toList ['u'] (BUTTON_TTL + 1) [] =
      .view (buildUserlistPage [] (2 : Int) ['u'] (BUTTON_TTL + 1)) := by
  rfl

/-- The integer arithmetic `(a + b - 1) / b` implements the real ceiling
`⌈a / b⌉` whenever the page size `b` is positive. -/
theorem ceilDivNat_eq_ceil (a b : Nat) (hb : 0 < b) :
    ceilDivNat a b = Nat.ceil ((a : ℚ) / (b : ℚ)) := by
  have hbq : (0 : ℚ) < (b : ℚ) := by exact_mod_cast hb
  apply le_antisymm
  · have hle : (a : ℚ) / (b : ℚ) ≤ (Nat.ceil ((a : ℚ) / (b : ℚ)) : ℚ) := Nat.le_ceil _
    rw [div_le_iff₀ hbq] at hle
    have haN : a ≤ b * Nat.ceil ((a : ℚ) / (b : ℚ)) := by
      rw [Nat.mul_comm]
      exact_mod_cast hle
    unfold ceilDivNat
    rw [Nat.div_le_iff_le_mul_add_pred hb]
    generalize b * Nat.ceil ((a : ℚ) / (b : ℚ)) = t at haN ⊢
    omega
  · rw [Nat.ceil_le, div_le_iff₀ hbq]
    have h1 : a ≤ (a + b - 1) / b * b := by
      have h2 : a + b - 1 < (a + b - 1) / b * b + b := Nat.lt_div_mul_add hb
      generalize (a + b - 1) / b * b = t at h2 ⊢
      omega
    unfold ceilDivNat
    exact_mod_cast h1

/-- C4: the page count of a rendered listing equals
`max(1, ceil(total / pageSize))` — with the code's integer form agreeing with
the real ceiling for every positive page size — and the requested page is
always clamped into `[1, pageCount]` at render time (the builder is a total
function, it never raises); concretely: 0 records give 1 page, 20 records
give 1 page, 21 records give 2 pages, and requesting page 5 of a 2-page
listing renders page 2. -/
theorem C4_page_math :
    (∀ (st : Store) (page : Int) (inv : List Char) (ts : Nat),
        (buildUserlistPage st page inv ts).pages = max 1 (ceilDivNat st.length PAGE_SIZE)
        ∧ 1 ≤ (buildUserlistPage st page inv ts).page
        ∧ (buildUserlistPage st page inv ts).page ≤ (buildUserlistPage st page inv ts).pages)
    ∧ (∀ total pageSize : Nat, 0 < pageSize →
        ceilDivNat total pageSize = Nat.ceil ((total : ℚ) / (pageSize : ℚ)))
    ∧ (buildUserlistPage [] 1 [] 0).pages = 1
    ∧ (buildUserlistPage (List.replicate 20 (([] : List Char), ({} : UserRecord))) 1 [] 0).pages = 1
    ∧ (buildUserlistPage (List.replicate 21 (([] : List Char), ({} : UserRecord))) 1 [] 0).pages = 2
    ∧ (buildUserlistPage (List.replicate 21 (([] : List Char), ({} : UserRecord))) 5 [] 0).page = 2 := by
  refine ⟨?_, fun total pageSize h => ceilDivNat_eq_ceil total pageSize h, ?_, ?_, ?_, ?_⟩
  · intro st page inv ts
    refine ⟨by simp [buildUserlistPage], ?_, ?_⟩
    · simp only [buildUserlistPage]
      have h1 : (1 : Int) ≤ max 1 page := le_max_left 1 page
      have h2 : (1 : Int) ≤ (max 1 (ceilDivNat (st.map Prod.snd).length PAGE_SIZE) : Nat) := by
        exact_mod_cast Nat.le_max_left 1 _
      omega
    · simp only [buildUserlistPage]
      have h2 : min (max 1 page) ((max 1 (ceilDivNat (st.map Prod.snd).length PAGE_SIZE) : Nat) : Int) ≤
          ((max 1 (ceilDivNat (st.map Prod.snd).length PAGE_SIZE) : Nat) : Int) :=
        min_le_right _ _
      omega
  · decide
  · decide
  · decide
  · decide

theorem C4_page_math_witness :
    ceilDivNat 21 20 = Nat.ceil ((21 : ℚ) / (20 : ℚ)) :=
  C4_page_math.2.1 21 20 (by decide)

theorem refreshList_counts (oracle : List Char → RefreshOutcome) :
    ∀ st : Store, (refreshList oracle st).2.1 + (refreshList oracle st).2.2 = st.length := by
  intro st
  induction st with
  | nil => rfl
  | cons kv rest ih =>
    obtain ⟨uid, u⟩ := kv
    simp only [refreshList]
    cases refreshRecord oracle uid u <;> simp only [List.length_cons] <;> omega

/-- C5: one refresh pass reports `refreshed + deleted` equal to the number of
records in the loaded store at the start of the pass — every record is counted
exactly once. -/
theorem C5_counts_partition (oracle : List Char → RefreshOutcome) (st : Store) :
    (refreshAllTokens oracle st).refreshed + (refreshAllTokens oracle st).deleted =
      st.length := by
  unfold refreshAllTokens
  by_cases h : st.isEmpty
  · rw [List.isEmpty_iff] at h
    simp [h]
  · simp only [h, Bool.false_eq_true, if_false]
    exact refreshList_counts oracle st

theorem refreshRecord_refresh_token_ne_none (oracle : List Char → RefreshOutcome)
    (uid : List Char) (u u1 : UserRecord) (h : refreshRecord oracle uid u = some u1) :
    u1.refresh_token ≠ none := by
  unfold refreshRecord at h
  cases hrt : u.refresh_token with
  | none => rw [hrt] at h; exact absurd h (by simp)
  | some rt =>
    rw [hrt] at h
    cases horacle : oracle uid with
    | bad => rw [horacle] at h; exact absurd h (by simp)
    | err => rw [horacle] at h; exact absurd h (by simp)
    | ok access newR =>
      rw [horacle] at h
      simp only [Option.some_inj] at h
      subst h
      cases newR <;> simp [hrt]

theorem refreshList_refresh_token (oracle : List Char → RefreshOutcome) :
    ∀ st : Store, ∀ kv ∈ (refreshList oracle st).1, kv.2.refresh_token ≠ none := by
  intro st
  induction st with
  | nil => intro kv hkv; simp [refreshList] at hkv
  | cons hd rest ih =>
    obtain ⟨uid, u⟩ := hd
    intro kv hkv
    simp only [refreshList] at hkv
    cases hrec : refreshRecord oracle uid u with
    | none =>
      rw [hrec] at hkv
      exact ih kv hkv
    | some u1 =>
      rw [hrec] at hkv
      rcases List.mem_cons.mp hkv with hEq | hm
      · subst hEq
        exact refreshRecord_refresh_token_ne_none oracle uid u u1 hrec
      · exact ih kv hm

theorem refreshList_keys_subset (oracle : List Char → RefreshOutcome) :
    ∀ st : Store, ∀ k ∈ (refreshList oracle st).1.map Prod.fst, k ∈ st.map Prod.fst := by
  intro st
  induction st with
  | nil => intro k hk; simp [refreshList] at hk
  | cons hd rest ih =>
    obtain ⟨uid, u⟩ := hd
    intro k hk
    simp only [refreshList] at hk
    cases hrec : refreshRecord oracle uid u with
    | none =>
      rw [hrec] at hk
      simp only [List.map_cons, List.mem_cons]
      exact Or.inr (ih k hk)
    | some u1 =>
      rw [hrec] at hk
      simp only [List.map_cons, List.mem_cons] at hk
      simp only [List.map_cons, List.mem_cons]
      rcases hk with hEq | hm
      · exact Or.inl hEq
      · exact Or.inr (ih k hm)

theorem refreshList_evicts (oracle : List Char → RefreshOutcome) :
    ∀ st : Store, (st.map Prod.fst).Nodup →
      ∀ uid u, (uid, u) ∈ st → u.refresh_token = none →
        uid ∉ (refreshList oracle st).1.map Prod.fst := by
  intro st
  induction st with
  | nil => intro _ uid u hm; simp at hm
  | cons hd rest ih =>
    obtain ⟨k0, u0⟩ := hd
    intro hnodup uid u hm hnone
    have hnodup1 : (rest.map Prod.fst).Nodup := (List.nodup_cons.mp hnodup).2
    have hk0 : k0 ∉ rest.map Prod.fst := (List.nodup_cons.mp hnodup).1
    rcases List.mem_cons.mp hm with hEq | hmrest
    · injection hEq with hEq1 hEq2
      subst hEq1
      subst hEq2
      simp only [refreshList]
      have hrec : refreshRecord oracle uid u = none := by
        unfold refreshRecord
        rw [hnone]
      rw [hrec]
      intro hmem
      exact hk0 (refreshList_keys_subset oracle rest uid hmem)
    · have huid : uid ∈ rest.map Prod.fst :=
        List.mem_map.mpr ⟨(uid, u), hmrest, rfl⟩
      have hne : k0 ≠ uid := fun hEq => hk0 (hEq ▸ huid)
      simp only [refreshList]
      cases hrec : refreshRecord oracle k0 u0 with
      | none => exact ih hnodup1 uid u hmrest hnone
      | some u1 =>
        simp only [List.map_cons, List.mem_cons]
        intro hor
        rcases hor with hEq | hmem
        · exact hne hEq.symm
        · exact ih hnodup1 uid u hmrest hnone hmem

/-- C6: after a full refresh pass, every record still in the resulting store
has a non-null refresh token; a record entering the pass without a refresh
token is evicted (its key is absent afterwards, keys being unique as they are
in a JS object); and a refreshed record whose refresh response supplies no new
refresh token keeps its existing one. -/
theorem C6_durable_records (oracle : List Char → RefreshOutcome) (st : Store) :
    (∀ kv ∈ (refreshAllTokens oracle st).store, kv.2.refresh_token ≠ none)
    ∧ ((st.map Prod.fst).Nodup →
        ∀ uid u, (uid, u) ∈ st → u.refresh_token = none →
          uid ∉ (refreshAllTokens oracle st).store.map Prod.fst)
    ∧ (∀ (uid : List Char) (u : UserRecord) (accessTok : List Char) (rt : List Char),
        u.refresh_token = some rt → oracle uid = .ok accessTok none →
          refreshRecord oracle uid u = some { u with access_token := some accessTok }) := by
  refine ⟨?_, ?_, ?_⟩
  · intro kv hkv
    unfold refreshAllTokens at hkv
    by_cases h : st.isEmpty
    · rw [List.isEmpty_iff] at h
      subst h
      simp at hkv
    · simp only [h, Bool.false_eq_true, if_false] at hkv
      exact refreshList_refresh_token oracle st kv hkv
  · intro hnodup uid u hm hnone
    unfold refreshAllTokens
    by_cases h : st.isEmpty
    · rw [List.isEmpty_iff] at h
      subst h
      simp at hm
    · simp only [h, Bool.false_eq_true, if_false]
      exact refreshList_evicts oracle st hnodup uid u hm hnone
  · intro uid u accessTok rt hrt horacle
    unfold refreshRecord
    rw [hrt, horacle]

theorem C6_durable_records_witness :
    (['a'] : List Char) ∉
      (refreshAllTokens (fun _ => RefreshOutcome.bad)
        [(['a'], ({ refresh_token := none } : UserRecord))]).store.map Prod.fst :=
  (C6_durable_records (fun _ => RefreshOutcome.bad)
      [(['a'], ({ refresh_token := none } : UserRecord))]).2.1
    (by decide) ['a'] ({ refresh_token := none } : UserRecord) (by decide) rfl

/-- C7 (amended): for every non-empty population the refresh pass saves the
store exactly once, at the very end, and the saved snapshot is exactly the
final store reflecting all evictions and rotations; the empty population,
however, returns early (src/index.js:162-165) before the save at line 221, so
that pass performs no save at all. -/
theorem C7_save_once (oracle : List Char → RefreshOutcome) (st : Store) (h : st ≠ []) :
    (refreshAllTokens oracle st).saves = [(refreshAllTokens oracle st).store] := by
  cases st with
  | nil => exact absurd rfl h
  | cons hd tl => simp [refreshAllTokens]

theorem C7_save_once_witness :
    (refreshAllTokens (fun _ => RefreshOutcome.bad)
        [(['a'], ({ refresh_token := none } : UserRecord))]).saves =
      [(refreshAllTokens (fun _ => RefreshOutcome.bad)
        [(['a'], ({ refresh_token := none } : UserRecord))]).store] :=
  C7_save_once (fun _ => RefreshOutcome.bad)
    [(['a'], ({ refresh_token := none } : UserRecord))] (by decide)

/-- C7 counterexample: a refresh pass over the empty population performs zero
saves — not the exactly-one save the claim asserts for every population
including the empty one. -/
theorem C7_save_once_counterexample :
    (refreshAllTokens (fun _ => RefreshOutcome.bad) []).saves.length ≠ 1 := by
  decide

theorem dispatchAux_succ (bs fuel : Nat) (recs : List α) :
    dispatchAux bs (fuel + 1) recs =
      if recs.isEmpty then ([], 0)
      else
        if (recs.drop bs).isEmpty then ([recs.take bs], 0)
        else
          ((recs.take bs) :: (dispatchAux bs fuel (recs.drop bs)).1,
            (dispatchAux bs fuel (recs.drop bs)).2 + 1) := rfl

theorem dispatchAux_join (bs : Nat) (hbs : 0 < bs) :
    ∀ (fuel : Nat) (recs : List α), recs.length ≤ fuel →
      ((dispatchAux bs fuel recs).1).flatten = recs := by
  intro fuel
  induction fuel with
  | zero =>
    intro recs h
    have hnil : recs = [] := List.eq_nil_of_length_eq_zero (by omega)
    subst hnil
    rfl
  | succ fuel ih =>
    intro recs h
    rw [dispatchAux_succ]
    by_cases hre : recs.isEmpty
    · rw [List.isEmpty_iff] at hre
      subst hre
      simp
    · rw [if_neg hre]
      rw [List.isEmpty_iff] at hre
      have hpos : 0 < recs.length := List.length_pos.mpr hre
      by_cases hdrop : (recs.drop bs).isEmpty
      · rw [if_pos hdrop]
        rw [List.isEmpty_iff] at hdrop
        have hlen : recs.length ≤ bs := by
          have := List.length_drop bs recs
          rw [hdrop] at this
          simp at this
          omega
        simp [List.take_of_length_le hlen]
      · rw [if_neg hdrop]
        have hlen : (recs.drop bs).length ≤ fuel := by
          rw [List.length_drop]
          omega
        simp only [List.flatten]
        rw [ih (recs.drop bs) hlen]
        exact List.take_append_drop bs recs

theorem dispatchAux_sizes (bs : Nat) (hbs : 0 < bs) :
    ∀ (fuel : Nat) (recs : List α), recs.length ≤ fuel →
      ∀ b ∈ (dispatchAux bs fuel recs).1, b ≠ [] ∧ b.length ≤ bs := by
  intro fuel
  induction fuel with
  | zero =>
    intro recs h b hb
    simp [dispatchAux] at hb
  | succ fuel ih =>
    intro recs h b hb
    rw [dispatchAux_succ] at hb
    by_cases hre : recs.isEmpty
    · rw [if_pos hre] at hb
      simp at hb
    · rw [if_neg hre] at hb
      rw [List.isEmpty_iff] at hre
      have hpos : 0 < recs.length := List.length_pos.mpr hre
      have htake : (recs.take bs).length = min bs recs.length := List.length_take bs recs
      have htakeNe : recs.take bs ≠ [] := by
        intro hnil
        rw [hnil] at htake
        simp at htake
        omega
      have htakeLe : (recs.take bs).length ≤ bs := by omega
      by_cases hdrop : (recs.drop bs).isEmpty
      · rw [if_pos hdrop] at hb
        simp only [List.mem_singleton] at hb
        subst hb
        exact ⟨htakeNe, htakeLe⟩
      · rw [if_neg hdrop] at hb
        rcases List.mem_cons.mp hb with hEq | hm
        · subst hEq
          exact ⟨htakeNe, htakeLe⟩
        · have hlen : (recs.drop bs).length ≤ fuel := by
            rw [List.length_drop]
            omega
          exact ih (recs.drop bs) hlen b hm

theorem dispatchAux_ne_nil (bs fuel : Nat) (recs : List α)
    (hfuel : 0 < fuel) (hrecs : recs ≠ []) : (dispatchAux bs fuel recs).1 ≠ [] := by
  cases fuel with
  | zero => omega
  | succ fuel =>
    rw [dispatchAux_succ]
    have hre : recs.isEmpty = false := by
      cases recs with
      | nil => exact absurd rfl hrecs
      | cons hd tl => rfl
    rw [hre]
    by_cases hdrop : (recs.drop bs).isEmpty <;> simp [hdrop]

theorem dispatchAux_dropLast (bs : Nat) (hbs : 0 < bs) :
    ∀ (fuel : Nat) (recs : List α), recs.length ≤ fuel →
      ∀ b ∈ ((dispatchAux bs fuel recs).1).dropLast, b.length = bs := by
  intro fuel
  induction fuel with
  | zero =>
    intro recs h b hb
    simp [dispatchAux] at hb
  | succ fuel ih =>
    intro recs h b hb
    rw [dispatchAux_succ] at hb
    by_cases hre : recs.isEmpty
    · rw [if_pos hre] at hb
      simp at hb
    · rw [if_neg hre] at hb
      rw [List.isEmpty_iff] at hre
      have hpos : 0 < recs.length := List.length_pos.mpr hre
      by_cases hdrop : (recs.drop bs).isEmpty
      · rw [if_pos hdrop] at hb
        simp at hb
      · rw [if_neg hdrop] at hb
        have hdropNe : recs.drop bs ≠ [] := by
          intro hnil
          rw [hnil] at hdrop
          exact hdrop rfl
        have hlenDrop : (recs.drop bs).length ≤ fuel := by
          rw [List.length_drop]
          omega
        have hrecNe : (dispatchAux bs fuel (recs.drop bs)).1 ≠ [] := by
          apply dispatchAux_ne_nil bs fuel (recs.drop bs) ?_ hdropNe
          have : 0 < (recs.drop bs).length := List.length_pos.mpr hdropNe
          omega
        rw [List.dropLast_cons_of_ne_nil hrecNe] at hb
        rcases List.mem_cons.mp hb with hEq | hm
        · subst hEq
          have hbslt : bs < recs.length := by
            have := List.length_drop bs recs
            have h0 : 0 < (recs.drop bs).length := List.length_pos.mpr hdropNe
            omega
          rw [List.length_take]
          omega
        · exact ih (recs.drop bs) hlenDrop b hm

theorem dispatchAux_delays (bs : Nat) (hbs : 0 < bs) :
    ∀ (fuel : Nat) (recs : List α), recs.length ≤ fuel →
      (dispatchAux bs fuel recs).2 = (dispatchAux bs fuel recs).1.length - 1 := by
  intro fuel
  induction fuel with
  | zero => intro recs h; rfl
  | succ fuel ih =>
    intro recs h
    rw [dispatchAux_succ]
    by_cases hre : recs.isEmpty
    · rw [if_pos hre]
      rfl
    · rw [if_neg hre]
      rw [List.isEmpty_iff] at hre
      have hpos : 0 < recs.length := List.length_pos.mpr hre
      by_cases hdrop : (recs.drop bs).isEmpty
      · rw [if_pos hdrop]
        rfl
      · rw [if_neg hdrop]
        have hdropNe : recs.drop bs ≠ [] := by
          intro hnil
          rw [hnil] at hdrop
          exact hdrop rfl
        have hlenDrop : (recs.drop bs).length ≤ fuel := by
          rw [List.length_drop]
          omega
        have hrecNe : (dispatchAux bs fuel (recs.drop bs)).1 ≠ [] := by
          apply dispatchAux_ne_nil bs fuel (recs.drop bs) ?_ hdropNe
          have : 0 < (recs.drop bs).length := List.length_pos.mpr hdropNe
          omega
        have hlen1 : 0 < (dispatchAux bs fuel (recs.drop bs)).1.length :=
          List.length_pos.mpr hrecNe
        have := ih (recs.drop bs) hlenDrop
        simp only [List.length_cons]
        omega

/-- C8: the addall loop partitions the dispatch population into contiguous
batches of `batchSize` (the last possibly smaller but never empty), batches
are issued strictly in order — each batch is awaited to settlement before the
next slice is taken — and the inter-batch delay is taken exactly once between
consecutive batches, i.e. `batches - 1` times, skipping the final batch;
concretely, 13 records with batch size 5 yield batches of sizes 5, 5, 3 and
exactly 2 delays. -/
theorem C8_batch_dispatch :
    (∀ (bs : Nat) (recs : Store), 0 < bs →
        ((dispatchBatches bs recs).1).flatten = recs
        ∧ (∀ b ∈ (dispatchBatches bs recs).1, b ≠ [] ∧ b.length ≤ bs)
        ∧ (∀ b ∈ ((dispatchBatches bs recs).1).dropLast, b.length = bs)
        ∧ (dispatchBatches bs recs).2 = (dispatchBatches bs recs).1.length - 1)
    ∧ ((dispatchBatches BATCH_SIZE
          (List.replicate 13 (([] : List Char), ({} : UserRecord)))).1.map List.length
        = [5, 5, 3]
      ∧ (dispatchBatches BATCH_SIZE
          (List.replicate 13 (([] : List Char), ({} : UserRecord)))).2 = 2) := by
  refine ⟨fun bs recs hbs => ?_, by decide, by decide⟩
  exact ⟨dispatchAux_join bs hbs recs.length recs le_rfl,
    dispatchAux_sizes bs hbs recs.length recs le_rfl,
    dispatchAux_dropLast bs hbs recs.length recs le_rfl,
    dispatchAux_delays bs hbs recs.length recs le_rfl⟩

theorem C8_batch_dispatch_witness :
    ((dispatchBatches 5 (List.replicate 13 (([] : List Char), ({} : UserRecord)))).1).flatten =
      List.replicate 13 (([] : List Char), ({} : UserRecord)) :=
  (C8_batch_dispatch.1 5 (List.replicate 13 (([] : List Char), ({} : UserRecord)))
    (by decide)).1

/-- C9 (amended): on a missing or empty authorization code the callback
responds 400 — a client error — and neither mutates nor saves the store; on a
failed token exchange (a thrown fetch or a reply without an access token) it
responds 500, which is a server-error status rather than a client error, and
likewise neither mutates nor saves the store. -/
theorem C9_callback_failures (code : Option (List Char)) (ip : List Char)
    (exch : Except Unit TokenData) (uf : Except Unit CallbackUserData)
    (iso : List Char) (st : Store) :
    ((code = none ∨ code = some []) →
        (callbackHandler code ip exch uf iso st).status = 400
        ∧ isClientError (callbackHandler code ip exch uf iso st).status = true
        ∧ (callbackHandler code ip exch uf iso st).store = st
        ∧ (callbackHandler code ip exch uf iso st).saves = [])
    ∧ (∀ c, code = some c → c ≠ [] → exch = Except.error () →
        (callbackHandler code ip exch uf iso st).status = 500
        ∧ (callbackHandler code ip exch uf iso st).store = st
        ∧ (callbackHandler code ip exch uf iso st).saves = [])
    ∧ (∀ c td, code = some c → c ≠ [] → exch = Except.ok td →
        (td.access_token = none ∨ td.access_token = some []) →
        (callbackHandler code ip exch uf iso st).status = 500
        ∧ (callbackHandler code ip exch uf iso st).store = st
        ∧ (callbackHandler code ip exch uf iso st).saves = []) := by
  refine ⟨?_, ?_, ?_⟩
  · intro hcode
    rcases hcode with h | h <;> subst h <;> exact ⟨rfl, rfl, rfl, rfl⟩
  · intro c hc hcne hexch
    subst hc
    subst hexch
    have hcfalse : c.isEmpty = false := by
      cases c with
      | nil => exact absurd rfl hcne
      | cons hd tl => rfl
    simp [callbackHandler, hcfalse]
  · intro c td hc hcne hexch hat
    subst hc
    subst hexch
    have hcfalse : c.isEmpty = false := by
      cases c with
      | nil => exact absurd rfl hcne
      | cons hd tl => rfl
    rcases hat with h | h <;> simp [callbackHandler, hcfalse, h]

theorem C9_callback_failures_witness :
    (callbackHandler none [] (Except.error ()) (Except.error ()) [] []).status = 400 :=
  ((C9_callback_failures none [] (Except.error ()) (Except.error ()) [] []).1
    (Or.inl rfl)).1

/-- C9 counterexample: a request whose token exchange throws is answered with
status 500, which is not a client (4xx) error, refuting the claim that every
failed exchange responds with a client error (the store is still untouched). -/
theorem C9_callback_failures_counterexample :
    (callbackHandler (some ['a']) [] (Except.error ()) (Except.error ()) [] []).status = 500
    ∧ isClientError
        (callbackHandler (some ['a']) [] (Except.error ()) (Except.error ()) [] []).status
      = false
    ∧ (callbackHandler (some ['a']) [] (Except.error ()) (Except.error ()) [] []).store = []
    ∧ (callbackHandler (some ['a']) [] (Except.error ()) (Except.error ()) [] []).saves = [] := by
  decide

end Verifying
